import Mathlib

/-!
Shallow embedding of the client-side result-processing pipeline of the
model-search frontend (source: `src/app/page.tsx` and the extended Home page
variant `src/unnamed/part_001`; the two agree on every function modelled
here, `part_001` additionally contains the grouping code).

Modelling conventions:
* JavaScript numbers that only ever hold integers (`downloads`) are `Int`;
  the floating-point relevance `distance` is `ℚ` (the code only compares
  distances — via the comparator `a.distance - b.distance` — and never does
  float arithmetic whose rounding is observable).
* JavaScript's `Array.prototype.sort`, stable per ECMAScript 2019+, is
  modelled by the stable insertion sort `jsSort`: for a total preorder a
  stable sort is unique, so any stable sort is a faithful model.
* A plain JS object used as a string-keyed dictionary is modelled by an
  insertion-ordered association list; `Object.entries` enumeration order is
  modelled by `jsObjectEntries`, which follows the ECMAScript own-property
  key order: array-index-like keys (canonical decimal numerals below
  2^32 - 1) first, in ascending numeric order, then the remaining string
  keys in insertion (first-creation) order.
* A value that JavaScript may leave `undefined` (`model.tags`,
  `data.results`, the optional description) is an `Option`; a `throw` that
  the code catches is an `Except` error value.
* React state is the record `AppState`; an event handler is a function
  `AppState → AppState`, and the two `useEffect` blocks (facets, then
  filter/sort/limit) are re-applied after a handler runs; `submitSearch`
  models the settled state after the effect cascade of a form submission.
-/

/-- Stable insertion step: place `a` before the first element `b` with
`le a b`.  Processing the original list right-to-left (see `jsSort`), this
keeps elements with equal keys in their original relative order, exactly
like JavaScript's stable `Array.prototype.sort`. -/
def sortInsert {α : Type} (le : α → α → Bool) (a : α) : List α → List α
  | [] => [a]
  | b :: bs => if le a b then a :: b :: bs else b :: sortInsert le a bs

/-- Stable sort modelling `Array.prototype.sort` with comparator-induced
relation `le a b ⟺ comparator a b ≤ 0`. -/
def jsSort {α : Type} (le : α → α → Bool) : List α → List α
  | [] => []
  | a :: as => sortInsert le a (jsSort le as)

/-- First element of `l` attaining the `le`-minimum, ties won by the
earlier element; this is the specification-side description of the head of
a stable ascending sort ("ascending sort, first element wins"). -/
def firstBest {α : Type} (le : α → α → Bool) : List α → Option α
  | [] => none
  | x :: xs =>
    match firstBest le xs with
    | none => some x
    | some y => if le x y then some x else some y

/-- One search result, `interface ModelResult` of the source.  `tags` is
`Option` because the code guards `if (result.tags)` / `model.tags &&`. -/
structure ModelResult where
  model_id : String
  tags : Option (List String)
  downloads : Int
  distance : ℚ
  model_explanation_gemini : Option String
deriving DecidableEq, Repr

/-- Source `COMMON_EXCLUDED_TAGS` (a JS `Set`, modelled as a list). -/
def COMMON_EXCLUDED_TAGS : List String := ["transformers"]

/-- Source `EXCLUDED_TAG_PREFIXES`. -/
def EXCLUDED_TAG_PREFIXES : List String :=
  ["arxiv:", "base_model:", "dataset:", "diffusers:", "license:"]

/-- Source `filterTagForDisplay`: `!tag` is the JS falsiness test, which
for a string argument of the declared type means the empty string. -/
def filterTagForDisplay (tag : String) : Bool :=
  if tag = ("") then false
  else
    let lowerTag := tag.toLower
    decide (tag.length > 3) &&
    !(COMMON_EXCLUDED_TAGS.contains lowerTag) &&
    !(EXCLUDED_TAG_PREFIXES.any (fun p => lowerTag.startsWith p))

/-- JavaScript `String.prototype.split` with a single-character separator,
on the character list of the string: `n` separators yield `n + 1` parts
(never the empty list of parts). -/
def splitOnChar (sep : Char) : List Char → List (List Char)
  | [] => [[]]
  | c :: cs =>
    if c = sep then [] :: splitOnChar sep cs
    else
      match splitOnChar sep cs with
      | [] => [[c]]
      | p :: ps => (c :: p) :: ps

/-- The first component of a split: `str.split(sep)[0]`. -/
def firstPart (sep : Char) (l : List Char) : List Char :=
  match splitOnChar sep l with
  | [] => []
  | p :: _ => p

/-- Source `getBaseModelName`: split on `'/'`; the name part is `parts[1]`
when a namespace exists, else `parts[0]`; truncate the name part at the
first `'-'`; reattach `parts[0] + "/"` when a namespace exists. -/
def getBaseModelName (modelId : String) : String :=
  match splitOnChar '/' modelId.data with
  | [] => ("")
  | [modelName] => ⟨firstPart '-' modelName⟩
  | p0 :: modelName :: _ => ⟨p0 ++ '/' :: firstPart '-' modelName⟩

/-- One step of source `groupModelsByBaseName`'s `forEach` body: create the
group on first sight (at the end of the key order), else push at its end. -/
def addToGroup (name : String) (m : ModelResult) :
    List (String × List ModelResult) → List (String × List ModelResult)
  | [] => [(name, [m])]
  | (k, v) :: rest =>
    if k = name then (k, v ++ [m]) :: rest else (k, v) :: addToGroup name m rest

/-- Source `groupModelsByBaseName`, the JS object modelled as an
insertion-ordered association list. -/
def groupModelsByBaseName (models : List ModelResult) :
    List (String × List ModelResult) :=
  models.foldl (fun acc m => addToGroup (getBaseModelName m.model_id) m acc) []

/-- Property lookup `grouped[baseName]` on the association-list model. -/
def findGroup (name : String) :
    List (String × List ModelResult) → Option (List ModelResult)
  | [] => none
  | (k, v) :: rest => if k = name then some v else findGroup name rest

/-- Keys of the grouped object, in insertion order. -/
def keysOf (g : List (String × List ModelResult)) : List String :=
  g.map Prod.fst

/-- Decimal value of a digit string (JS semantics of a numeric key). -/
def charsToNat (l : List Char) : Nat :=
  l.foldl (fun n c => n * 10 + (c.toNat - 48)) 0

/-- ECMAScript array-index key test: a canonical decimal numeral (no
leading zero unless exactly `"0"`) whose value is below `2 ^ 32 - 1`.
`Object.entries` enumerates such keys before all others. -/
def isArrayIndexKey (s : String) : Bool :=
  match s.data with
  | [] => false
  | c :: cs =>
    (c :: cs).all Char.isDigit &&
    (decide (c ≠ '0') || decide (cs = List.nil)) &&
    decide (charsToNat (c :: cs) < 4294967295)

/-- `Object.entries` enumeration order (ECMAScript OrdinaryOwnPropertyKeys):
array-index-like keys first, ascending by numeric value, then the remaining
keys in insertion order. -/
def jsObjectEntries (g : List (String × List ModelResult)) :
    List (String × List ModelResult) :=
  jsSort (fun a b => decide (charsToNat a.1.data ≤ charsToNat b.1.data))
      (g.filter (fun p => isArrayIndexKey p.1))
    ++ g.filter (fun p => !isArrayIndexKey p.1)

/-- First-occurrence deduplication of a key sequence; describes the
insertion order of the grouped object's keys. -/
def firstOccurrences (l : List String) : List String :=
  l.foldl (fun acc k => if k ∈ acc then acc else acc ++ [k]) []

/-- Comparator-induced relation of the relevance sort
`(a, b) => a.distance - b.distance`. -/
def distLe (a b : ModelResult) : Bool :=
  decide (a.distance ≤ b.distance)

/-- Result of source `getGroupStats`. -/
structure GroupStats where
  minDownloads : Int
  maxDownloads : Int
  bestRelevance : ℚ
  bestTags : List String
deriving DecidableEq, Repr

/-- Source `getGroupStats`.  On the empty list the JS code dereferences
`sortedByRelevance[0].distance` of `undefined` and throws, modelled as
`none`; `Math.min(...)`/`Math.max(...)` over the non-empty spread are the
folds, and `mostRelevantModel.tags || []` is `Option.getD`. -/
def getGroupStats (models : List ModelResult) : Option GroupStats :=
  let sortedByRelevance := jsSort distLe models
  match sortedByRelevance, models.map (fun m => m.downloads) with
  | mostRelevantModel :: _, d :: ds =>
    some
      { minDownloads := ds.foldl min d
        maxDownloads := ds.foldl max d
        bestRelevance := mostRelevantModel.distance
        bestTags := mostRelevantModel.tags.getD [] }
  | _, _ => none

/-- The filter state driving the pipeline (spec §3 "Filter State"). -/
structure FilterState where
  selectedTags : List String
  downloadRange : Int × Int
  sortOption : String
  resultsLimit : Nat
deriving DecidableEq, Repr

/-- Tag-filter step of the pipeline `useEffect`: when `selectedTags` is
non-empty, keep items whose `tags` exist and intersect `selectedTags`
(`selectedTags.some(tag => model.tags.includes(tag))`). -/
def tagFilterStep (selectedTags : List String) (l : List ModelResult) :
    List ModelResult :=
  if selectedTags.length > 0 then
    l.filter (fun model =>
      match model.tags with
      | some ts => selectedTags.any (fun tag => ts.contains tag)
      | none => false)
  else l

/-- Download-range step: `downloads >= low && downloads <= high`. -/
def rangeFilterStep (range : Int × Int) (l : List ModelResult) :
    List ModelResult :=
  l.filter (fun model =>
    decide (range.1 ≤ model.downloads) && decide (model.downloads ≤ range.2))

/-- Sort step: the `if/else if` chain on `sortOption`; comparators
`b.downloads - a.downloads`, `a.downloads - b.downloads`,
`a.distance - b.distance`; anything else leaves the order untouched. -/
def sortStep (mode : String) (l : List ModelResult) : List ModelResult :=
  if mode = ("downloads-high") then
    jsSort (fun a b => decide (b.downloads ≤ a.downloads)) l
  else if mode = ("downloads-low") then
    jsSort (fun a b => decide (a.downloads ≤ b.downloads)) l
  else if mode = ("relevance") then
    jsSort distLe l
  else l

/-- The filter/sort/limit `useEffect` body (lines 159-181 of the source):
copy, tag filter, download-range filter, sort, `slice(0, resultsLimit)`. -/
def applyPipelineFilter (results : List ModelResult) (fs : FilterState) :
    List ModelResult :=
  let filtered := results
  let filtered :=
    if fs.selectedTags.length > 0 then
      filtered.filter (fun model =>
        match model.tags with
        | some ts => fs.selectedTags.any (fun tag => ts.contains tag)
        | none => false)
    else filtered
  let filtered := filtered.filter (fun model =>
    decide (fs.downloadRange.1 ≤ model.downloads) &&
    decide (model.downloads ≤ fs.downloadRange.2))
  let filtered :=
    if fs.sortOption = ("downloads-high") then
      jsSort (fun a b => decide (b.downloads ≤ a.downloads)) filtered
    else if fs.sortOption = ("downloads-low") then
      jsSort (fun a b => decide (a.downloads ≤ b.downloads)) filtered
    else if fs.sortOption = ("relevance") then
      jsSort distLe filtered
    else filtered
  filtered.take fs.resultsLimit

/-- Displayable-tag accumulation of the facet `useEffect` (a JS `Set`
keeps first-insertion order; `Array.from` reads it back in that order). -/
def collectDisplayTags (results : List ModelResult) : List String :=
  results.foldl
    (fun acc r =>
      match r.tags with
      | none => acc
      | some ts =>
        ts.foldl
          (fun acc t =>
            if filterTagForDisplay t then
              (if acc.contains t then acc else acc ++ [t])
            else acc)
          acc)
    []

/-- Source `maxDownload` accumulation: start at `0`, update on strictly
greater. -/
def maxDownloadOf (results : List ModelResult) : Int :=
  results.foldl (fun acc r => if r.downloads > acc then r.downloads else acc) 0

/-- Lexicographic comparison of character lists by code point; this is the
order the argument-less JS `Array.prototype.sort` applies to strings
(UTF-16 code-unit order, which agrees with code-point order on the
basic multilingual plane where all real tags live). -/
def charListLe : List Char → List Char → Bool
  | [], _ => true
  | _ :: _, [] => false
  | a :: as, b :: bs =>
    if a.toNat < b.toNat then true
    else if b.toNat < a.toNat then false
    else charListLe as bs

/-- String order of the argument-less JS `Array.prototype.sort`. -/
def strLe (a b : String) : Bool :=
  charListLe a.data b.data

/-- JavaScript `String.prototype.trim`: drop whitespace from both ends. -/
def jsTrim (s : String) : String :=
  ⟨((s.data.dropWhile Char.isWhitespace).reverse.dropWhile Char.isWhitespace).reverse⟩

/-- The full component state (`useState` hooks of `Home`). -/
structure AppState where
  query : String
  results : List ModelResult
  filteredResults : List ModelResult
  groupedResults : List (String × List ModelResult)
  loading : Bool
  error : Option String
  selectedModel : Option ModelResult
  availableTags : List String
  selectedTags : List String
  downloadRange : Int × Int
  maxDownloads : Int
  sortOption : String
  isFiltersOpen : Bool
  resultsLimit : Nat
deriving Repr

/-- Facet `useEffect` (lines 134-156): only when the raw result set is
non-empty, recompute `availableTags` (sorted displayable tags),
`maxDownloads`, and reset `downloadRange` to `[0, maxDownload]`; an empty
raw set leaves all three states untouched. -/
def facetEffect (s : AppState) : AppState :=
  if s.results.length > 0 then
    let maxDownload := maxDownloadOf s.results
    { s with
      availableTags := jsSort strLe (collectDisplayTags s.results)
      maxDownloads := maxDownload
      downloadRange := (0, maxDownload) }
  else s

/-- The `FilterState` snapshot held inside an `AppState`. -/
def filterStateOf (s : AppState) : FilterState :=
  ⟨s.selectedTags, s.downloadRange, s.sortOption, s.resultsLimit⟩

/-- Filter/sort/limit `useEffect` at the state level: recompute
`filteredResults` and `groupedResults` (lines 183-184). -/
def filterEffect (s : AppState) : AppState :=
  let filtered := applyPipelineFilter s.results (filterStateOf s)
  { s with
    filteredResults := filtered
    groupedResults := groupModelsByBaseName filtered }

/-- Effect cascade after a handler commits: the facet effect runs first
(it is declared first and the filter effect depends on the range it may
reset), then the filter/sort/limit effect; this is the settled fixpoint of
React's re-render loop for these two effects. -/
def runEffects (s : AppState) : AppState :=
  filterEffect (facetEffect s)

/-- Outcome of the `fetch` inside `handleSearch`: a settled HTTP response
(`ok`, `status`, `statusText`, and the parsed body's optional `results`
field), a rejection carrying a JS `Error` with its `message`, or a
rejection whose value is not an `Error` object. -/
inductive FetchOutcome where
  | response (ok : Bool) (status : Nat) (statusText : String)
      (resultsField : Option (List ModelResult))
  | thrownError (msg : String)
  | thrownNonError
deriving DecidableEq, Repr

/-- The `try` block of `handleSearch`: missing backend URL and non-2xx
responses `throw new Error(...)`; a successful response yields
`data.results || []`.  The error payload is `some message` for an `Error`
object and `none` for a non-`Error` thrown value. -/
def searchAttempt (backendUrl : Option String) (outcome : FetchOutcome) :
    Except (Option String) (List ModelResult) :=
  match backendUrl with
  | none =>
    Except.error (some ("Backend URL is not configured in environment variables."))
  | some _ =>
    match outcome with
    | FetchOutcome.thrownError msg => Except.error (some msg)
    | FetchOutcome.thrownNonError => Except.error none
    | FetchOutcome.response ok status statusText resultsField =>
      if ok then Except.ok (resultsField.getD [])
      else
        Except.error
          (some (("Server responded with ") ++ toString status ++ (": ") ++ statusText))

/-- Source `handleSearch` (lines 187-224) as a state transition: bail out
on a blank query; clear `error` and `selectedTags`, run the attempt, store
the results on success, or store the single catch-clause message
(`err instanceof Error ? err.message : "An unknown error occurred"`) on
failure; `finally` clears `loading`. -/
def handleSearchCore (backendUrl : Option String) (outcome : FetchOutcome)
    (s : AppState) : AppState :=
  if jsTrim s.query = ("") then s
  else
    let s1 := { s with loading := true, error := none, selectedTags := [] }
    match searchAttempt backendUrl outcome with
    | Except.ok rs => { s1 with results := rs, loading := false }
    | Except.error e =>
      { s1 with
        error := some (e.getD ("An unknown error occurred"))
        loading := false }

/-- A form submission followed by the settled effect cascade. -/
def submitSearch (backendUrl : Option String) (outcome : FetchOutcome)
    (s : AppState) : AppState :=
  runEffects (handleSearchCore backendUrl outcome s)

/-- Source `clearFilters` (lines 230-235). -/
def clearFilters (s : AppState) : AppState :=
  { s with
    selectedTags := []
    downloadRange := (0, s.maxDownloads)
    sortOption := ("relevance")
    resultsLimit := 40 }

/-- Whether a `FetchOutcome` takes the failure path of `handleSearch`. -/
def isFailureOutcome : FetchOutcome → Bool
  | FetchOutcome.response ok _ _ _ => !ok
  | _ => true

/-- The single human-readable message the catch clause stores for each
failure outcome. -/
def failureMessage : FetchOutcome → String
  | FetchOutcome.response _ status statusText _ =>
    ("Server responded with ") ++ toString status ++ (": ") ++ statusText
  | FetchOutcome.thrownError msg => msg
  | FetchOutcome.thrownNonError => ("An unknown error occurred")

/-- Convenience constructor for concrete test items. -/
def mkItem (id : String) (tags : Option (List String)) (d : Int) (dist : ℚ) :
    ModelResult :=
  ⟨id, tags, d, dist, none⟩

/-- Initial component state (the `useState` initial values), with a
non-blank query typed in. -/
def exBaseState : AppState :=
  { query := ("hello")
    results := []
    filteredResults := []
    groupedResults := []
    loading := false
    error := none
    selectedModel := none
    availableTags := []
    selectedTags := []
    downloadRange := (0, 1000000)
    maxDownloads := 1000000
    sortOption := ("relevance")
    isFiltersOpen := false
    resultsLimit := 40 }

/-- Five pairwise distinct items that all pass an unconstrained filter. -/
def exRaw5 : List ModelResult :=
  [mkItem ("m1") none 1 1, mkItem ("m2") none 2 2, mkItem ("m3") none 3 3,
   mkItem ("m4") none 4 4, mkItem ("m5") none 5 5]

/-- Filter state with `resultLimit = 2` and no restrictions. -/
def exFsLimit2 : FilterState :=
  ⟨[], (0, 100), ("downloads-high"), 2⟩

/-- Item carrying tag `"aaaa"` only, few downloads. -/
def exItemA : ModelResult := mkItem ("xa") (some [("aaaa")]) 1 0

/-- Item carrying tag `"bbbb"` only, many downloads. -/
def exItemB : ModelResult := mkItem ("xb") (some [("bbbb")]) 5 0

/-- Two-item raw list for the tag-widening counterexample. -/
def exRawC4 : List ModelResult := [exItemA, exItemB]

/-- Selection `{A}` with `resultLimit = 1`, sorted by downloads. -/
def exFsSelA : FilterState := ⟨[("aaaa")], (0, 100), ("downloads-high"), 1⟩

/-- Selection `{A, B}` with the same range, sort and limit. -/
def exFsSelAB : FilterState :=
  ⟨[("aaaa"), ("bbbb")], (0, 100), ("downloads-high"), 1⟩

/-- Input whose second base name (`"7"`) is array-index-like. -/
def exRawC5 : List ModelResult :=
  [mkItem ("b-x") none 1 1, mkItem ("7-y") none 2 2]

/-- Input with no array-index-like base name. -/
def exRawC5w : List ModelResult :=
  [mkItem ("b-x") none 1 1, mkItem ("b-y") none 2 2, mkItem ("a-z") none 3 3]

/-- The concrete group of the `computeGroupStats` example: downloads 10
and 30, distances 0.5 and 0.2, distinct tag lists. -/
def exGroupC6 : List ModelResult :=
  [mkItem ("g-1") (some [("first-tags")]) 10 (0.5),
   mkItem ("g-2") (some [("second-tags")]) 30 (0.2)]

/-- State whose previous facet computation left `maxDownloads = 5`, about
to process an empty raw result set. -/
def exStateC2 : AppState :=
  { exBaseState with results := [], maxDownloads := 5, availableTags := [("old-tag")] }

/-- State with non-default sort and limit, before a new submission. -/
def exStateC3 : AppState :=
  { exBaseState with sortOption := ("downloads-high"), resultsLimit := 10 }

/-- A successful search response carrying one result. -/
def exOutcomeOk : FetchOutcome :=
  FetchOutcome.response true 200 ("OK") (some [mkItem ("m1") none 7 1])

/-- A failed (HTTP 500) search response. -/
def exOutcomeErr : FetchOutcome :=
  FetchOutcome.response false 500 ("Internal Server Error") none

/-- Filter state carrying an unrecognized sort mode. -/
def exFsUnknown : FilterState :=
  ⟨[], (0, 100), ("newest"), 3⟩

/-- Filter state used to instantiate the widening statement. -/
def exFsWiden : FilterState :=
  ⟨[], (0, 100), ("downloads-high"), 40⟩

/-- State holding one raw result that carries a displayable tag. -/
def exStateFacet : AppState :=
  { exBaseState with results := [mkItem ("m-1") (some [("greatmodel")]) 7 1] }

/-! Generic properties of the stable-sort model `jsSort`. -/

theorem length_sortInsert {α : Type} (le : α → α → Bool) (a : α) :
    ∀ l : List α, (sortInsert le a l).length = l.length + 1
  | [] => rfl
  | b :: bs => by
    by_cases h : le a b = true
    · simp [sortInsert, h]
    · simp [sortInsert, h, length_sortInsert le a bs]

theorem perm_sortInsert {α : Type} (le : α → α → Bool) (a : α) :
    ∀ l : List α, List.Perm (sortInsert le a l) (a :: l)
  | [] => List.Perm.refl _
  | b :: bs => by
    by_cases h : le a b = true
    · simp [sortInsert, h]
    · simp only [sortInsert, h, if_false, Bool.false_eq_true]
      exact ((perm_sortInsert le a bs).cons b).trans (List.Perm.swap a b bs)

theorem jsSort_perm {α : Type} (le : α → α → Bool) :
    ∀ l : List α, List.Perm (jsSort le l) l
  | [] => List.Perm.refl _
  | a :: as =>
    (perm_sortInsert le a (jsSort le as)).trans ((jsSort_perm le as).cons a)

theorem mem_jsSort {α : Type} (le : α → α → Bool) (l : List α) (x : α) :
    x ∈ jsSort le l ↔ x ∈ l :=
  (jsSort_perm le l).mem_iff

theorem length_jsSort {α : Type} (le : α → α → Bool) (l : List α) :
    (jsSort le l).length = l.length :=
  (jsSort_perm le l).length_eq

theorem mem_sortInsert {α : Type} (le : α → α → Bool) (a : α) (l : List α)
    (x : α) : x ∈ sortInsert le a l ↔ x = a ∨ x ∈ l := by
  rw [(perm_sortInsert le a l).mem_iff, List.mem_cons]

theorem pairwise_sortInsert {α : Type} (le : α → α → Bool)
    (htot : ∀ a b, le a b = true ∨ le b a = true)
    (htrans : ∀ a b c, le a b = true → le b c = true → le a c = true)
    (a : α) :
    ∀ l : List α, l.Pairwise (fun x y => le x y = true) →
      (sortInsert le a l).Pairwise (fun x y => le x y = true)
  | [], _ => by simp [sortInsert]
  | b :: bs, h => by
    rcases List.pairwise_cons.mp h with ⟨hb, hbs⟩
    by_cases hab : le a b = true
    · simp only [sortInsert, hab, if_true]
      refine List.pairwise_cons.mpr ⟨?_, h⟩
      intro x hx
      rcases List.mem_cons.mp hx with rfl | hx
      · exact hab
      · exact htrans a b x hab (hb x hx)
    · simp only [sortInsert, hab, if_false, Bool.false_eq_true]
      refine List.pairwise_cons.mpr ⟨?_, pairwise_sortInsert le htot htrans a bs hbs⟩
      intro x hx
      rcases (mem_sortInsert le a bs x).mp hx with rfl | hx
      · rcases htot x b with h1 | h1
        · exact absurd h1 hab
        · exact h1
      · exact hb x hx

theorem pairwise_jsSort {α : Type} (le : α → α → Bool)
    (htot : ∀ a b, le a b = true ∨ le b a = true)
    (htrans : ∀ a b c, le a b = true → le b c = true → le a c = true) :
    ∀ l : List α, (jsSort le l).Pairwise (fun x y => le x y = true)
  | [] => List.Pairwise.nil
  | a :: as =>
    pairwise_sortInsert le htot htrans a (jsSort le as)
      (pairwise_jsSort le htot htrans as)

theorem head?_sortInsert {α : Type} (le : α → α → Bool) (a : α) (l : List α) :
    (sortInsert le a l).head? =
      some (match l.head? with
            | none => a
            | some b => if le a b then a else b) := by
  cases l with
  | nil => rfl
  | cons b bs =>
    by_cases h : le a b = true
    · simp [sortInsert, h]
    · simp [sortInsert, h]

theorem head?_jsSort {α : Type} (le : α → α → Bool) :
    ∀ l : List α, (jsSort le l).head? = firstBest le l
  | [] => rfl
  | a :: as => by
    rw [jsSort, head?_sortInsert le a (jsSort le as)]
    rw [show (jsSort le as).head? = firstBest le as from head?_jsSort le as]
    cases hfb : firstBest le as with
    | none => simp [firstBest, hfb]
    | some y => by_cases h : le a y = true <;> simp [firstBest, hfb, h]

theorem firstBest_eq_none {α : Type} (le : α → α → Bool) :
    ∀ l : List α, firstBest le l = none ↔ l = []
  | [] => by simp [firstBest]
  | x :: xs => by
    simp only [firstBest]
    cases firstBest le xs with
    | none => simp
    | some y => by_cases h : le x y = true <;> simp [h]

theorem firstBest_mem {α : Type} (le : α → α → Bool) :
    ∀ l : List α, ∀ y : α, firstBest le l = some y → y ∈ l
  | x :: xs, y, h => by
    cases hfb : firstBest le xs with
    | none =>
      simp only [firstBest, hfb, Option.some.injEq] at h
      simp [h.symm]
    | some z =>
      simp only [firstBest, hfb] at h
      by_cases hle : le x z = true
      · rw [if_pos hle] at h
        simp only [Option.some.injEq] at h
        simp [h.symm]
      · rw [if_neg hle] at h
        simp only [Option.some.injEq] at h
        rw [← h]
        exact List.mem_cons_of_mem x (firstBest_mem le xs z hfb)

theorem firstBest_le {α : Type} (le : α → α → Bool)
    (htot : ∀ a b, le a b = true ∨ le b a = true)
    (htrans : ∀ a b c, le a b = true → le b c = true → le a c = true) :
    ∀ l : List α, ∀ y : α, firstBest le l = some y →
      ∀ x ∈ l, le y x = true
  | x :: xs, y, h => by
    have hrefl : ∀ a : α, le a a = true := fun a => by
      rcases htot a a with h1 | h1 <;> exact h1
    cases hfb : firstBest le xs with
    | none =>
      simp only [firstBest, hfb, Option.some.injEq] at h
      have hxs : xs = [] := (firstBest_eq_none le xs).mp hfb
      subst hxs
      intro w hw
      have hw' : w = x := by simpa using hw
      rw [hw', ← h]
      exact hrefl x
    | some z =>
      simp only [firstBest, hfb] at h
      have hzall : ∀ w ∈ xs, le z w = true := firstBest_le le htot htrans xs z hfb
      by_cases hle : le x z = true
      · rw [if_pos hle] at h
        simp only [Option.some.injEq] at h
        intro w hw
        rw [← h]
        rcases List.mem_cons.mp hw with hw1 | hw2
        · rw [hw1]
          exact hrefl x
        · exact htrans x z w hle (hzall w hw2)
      · rw [if_neg hle] at h
        simp only [Option.some.injEq] at h
        intro w hw
        rw [← h]
        rcases List.mem_cons.mp hw with hw1 | hw2
        · rw [hw1]
          rcases htot x z with h1 | h1
          · exact absurd h1 hle
          · exact h1
        · exact hzall w hw2

theorem firstBest_first {α : Type} (le : α → α → Bool) :
    ∀ l : List α, ∀ y : α, firstBest le l = some y →
      ∃ l1 l2, l = l1 ++ y :: l2 ∧ ∀ x ∈ l1, le x y = false
  | x :: xs, y, h => by
    cases hfb : firstBest le xs with
    | none =>
      simp only [firstBest, hfb, Option.some.injEq] at h
      exact ⟨[], xs, by rw [← h]; rfl, by simp⟩
    | some z =>
      simp only [firstBest, hfb] at h
      by_cases hle : le x z = true
      · rw [if_pos hle] at h
        simp only [Option.some.injEq] at h
        exact ⟨[], xs, by rw [← h]; rfl, by simp⟩
      · rw [if_neg hle] at h
        simp only [Option.some.injEq] at h
        rcases firstBest_first le xs z hfb with ⟨l1, l2, hxs, hl1⟩
        refine ⟨x :: l1, l2, by rw [← h, hxs]; rfl, ?_⟩
        intro w hw
        rw [← h]
        rcases List.mem_cons.mp hw with hw1 | hw2
        · rw [hw1]
          exact Bool.eq_false_iff.mpr hle
        · exact hl1 w hw2

/-! Order properties of the string comparison and of the fold-based
minimum/maximum used by `getGroupStats` and the facet extraction. -/

theorem charListLe_total : ∀ a b : List Char,
    charListLe a b = true ∨ charListLe b a = true
  | [], _ => Or.inl rfl
  | _ :: _, [] => Or.inr rfl
  | a :: as, b :: bs => by
    by_cases h1 : a.toNat < b.toNat
    · left
      simp [charListLe, h1]
    · by_cases h2 : b.toNat < a.toNat
      · right
        simp [charListLe, h1, h2]
      · rcases charListLe_total as bs with h | h
        · left
          simp [charListLe, h1, h2, h]
        · right
          simp [charListLe, h1, h2, h]

theorem charListLe_trans : ∀ a b c : List Char,
    charListLe a b = true → charListLe b c = true → charListLe a c = true
  | [], _, _, _, _ => rfl
  | _ :: _, [], _, h1, _ => by simp [charListLe] at h1
  | _ :: _, _ :: _, [], _, h2 => by simp [charListLe] at h2
  | a :: as, b :: bs, c :: cs, h1, h2 => by
    simp only [charListLe] at h1 h2 ⊢
    by_cases hab : a.toNat < b.toNat
    · by_cases hbc : b.toNat < c.toNat
      · have : a.toNat < c.toNat := Nat.lt_trans hab hbc
        simp [this]
      · rw [if_neg hbc] at h2
        by_cases hcb : c.toNat < b.toNat
        · rw [if_pos hcb] at h2
          exact absurd h2 (by simp)
        · have : a.toNat < c.toNat := by omega
          simp [this]
    · rw [if_neg hab] at h1
      by_cases hba : b.toNat < a.toNat
      · rw [if_pos hba] at h1
        exact absurd h1 (by simp)
      · have hab' : a.toNat = b.toNat := by omega
        rw [if_neg (by omega : ¬ b.toNat < a.toNat)] at h1
        by_cases hbc : b.toNat < c.toNat
        · have : a.toNat < c.toNat := hab' ▸ hbc
          simp [this]
        · rw [if_neg hbc] at h2
          by_cases hcb : c.toNat < b.toNat
          · rw [if_pos hcb] at h2
            exact absurd h2 (by simp)
          · rw [if_neg hcb] at h2
            have hac : ¬ a.toNat < c.toNat := by omega
            have hca : ¬ c.toNat < a.toNat := by omega
            rw [if_neg hac, if_neg hca]
            exact charListLe_trans as bs cs h1 h2

theorem strLe_total (a b : String) : strLe a b = true ∨ strLe b a = true :=
  charListLe_total a.data b.data

theorem strLe_trans (a b c : String) :
    strLe a b = true → strLe b c = true → strLe a c = true :=
  charListLe_trans a.data b.data c.data

theorem foldl_min_mem {α : Type} [LinearOrder α] :
    ∀ (l : List α) (d : α), l.foldl min d ∈ d :: l
  | [], d => by simp
  | c :: cs, d => by
    have h := foldl_min_mem cs (min d c)
    rw [List.foldl_cons]
    rcases List.mem_cons.mp h with h1 | h1
    · rw [h1]
      rcases min_choice d c with h2 | h2 <;> rw [h2] <;> simp
    · exact List.mem_cons_of_mem _ (List.mem_cons_of_mem _ h1)

theorem foldl_min_le {α : Type} [LinearOrder α] :
    ∀ (l : List α) (d : α), ∀ x ∈ d :: l, l.foldl min d ≤ x
  | [], d, x, hx => by
    have : x = d := by simpa using hx
    simp [this]
  | c :: cs, d, x, hx => by
    have ih := foldl_min_le cs (min d c)
    rcases List.mem_cons.mp hx with h1 | h1
    · have h2 : cs.foldl min (min d c) ≤ min d c := ih (min d c) (List.mem_cons_self _ _)
      rw [List.foldl_cons, h1]
      exact le_trans h2 (min_le_left d c)
    · rcases List.mem_cons.mp h1 with h2 | h2
      · have h3 : cs.foldl min (min d c) ≤ min d c := ih (min d c) (List.mem_cons_self _ _)
        rw [List.foldl_cons, h2]
        exact le_trans h3 (min_le_right d c)
      · rw [List.foldl_cons]
        exact ih x (List.mem_cons_of_mem _ h2)

theorem foldl_max_mem {α : Type} [LinearOrder α] :
    ∀ (l : List α) (d : α), l.foldl max d ∈ d :: l
  | [], d => by simp
  | c :: cs, d => by
    have h := foldl_max_mem cs (max d c)
    rw [List.foldl_cons]
    rcases List.mem_cons.mp h with h1 | h1
    · rw [h1]
      rcases max_choice d c with h2 | h2 <;> rw [h2] <;> simp
    · exact List.mem_cons_of_mem _ (List.mem_cons_of_mem _ h1)

theorem foldl_max_le {α : Type} [LinearOrder α] :
    ∀ (l : List α) (d : α), ∀ x ∈ d :: l, x ≤ l.foldl max d
  | [], d, x, hx => by
    have : x = d := by simpa using hx
    simp [this]
  | c :: cs, d, x, hx => by
    have ih := foldl_max_le cs (max d c)
    rcases List.mem_cons.mp hx with h1 | h1
    · have h2 : max d c ≤ cs.foldl max (max d c) := ih (max d c) (List.mem_cons_self _ _)
      rw [List.foldl_cons, h1]
      exact le_trans (le_max_left d c) h2
    · rcases List.mem_cons.mp h1 with h2 | h2
      · have h3 : max d c ≤ cs.foldl max (max d c) := ih (max d c) (List.mem_cons_self _ _)
        rw [List.foldl_cons, h2]
        exact le_trans (le_max_right d c) h3
      · rw [List.foldl_cons]
        exact ih x (List.mem_cons_of_mem _ h2)

theorem maxDownloadOf_foldl_aux :
    ∀ (rs : List ModelResult) (acc : Int),
      rs.foldl (fun acc r => if r.downloads > acc then r.downloads else acc) acc
        = (rs.map (fun m => m.downloads)).foldl max acc
  | [], _ => rfl
  | r :: rs, acc => by
    rw [List.foldl_cons, List.map_cons, List.foldl_cons]
    have hstep : (if r.downloads > acc then r.downloads else acc) = max acc r.downloads := by
      by_cases h : r.downloads > acc
      · rw [if_pos h]
        exact (max_eq_right (le_of_lt h)).symm
      · rw [if_neg h]
        exact (max_eq_left (le_of_not_lt h)).symm
    rw [hstep]
    exact maxDownloadOf_foldl_aux rs (max acc r.downloads)

/-- The `maxDownload` accumulator step is `max`. -/
theorem maxDownloadOf_eq_foldl_max (results : List ModelResult) :
    maxDownloadOf results = (results.map (fun m => m.downloads)).foldl max 0 :=
  maxDownloadOf_foldl_aux results 0

/-! Properties of the facet tag accumulation. -/

theorem collectStep_mem (acc : List String) (t x : String) :
    (x ∈ (if filterTagForDisplay t then
            (if acc.contains t then acc else acc ++ [t]) else acc)) ↔
      x ∈ acc ∨ (x = t ∧ filterTagForDisplay t = true) := by
  by_cases hf : filterTagForDisplay t = true
  · rw [if_pos hf]
    by_cases hc : acc.contains t = true
    · rw [if_pos hc]
      constructor
      · exact fun h => Or.inl h
      · rintro (h | ⟨rfl, _⟩)
        · exact h
        · exact List.elem_iff.mp hc
    · rw [if_neg hc]
      simp only [List.mem_append, List.mem_singleton]
      constructor
      · rintro (h | rfl)
        · exact Or.inl h
        · exact Or.inr ⟨rfl, hf⟩
      · rintro (h | ⟨rfl, _⟩)
        · exact Or.inl h
        · exact Or.inr rfl
  · rw [if_neg hf]
    constructor
    · exact fun h => Or.inl h
    · rintro (h | ⟨rfl, hft⟩)
      · exact h
      · exact absurd hft hf

theorem collectStep_nodup (acc : List String) (t : String) (h : acc.Nodup) :
    ((if filterTagForDisplay t then
        (if acc.contains t then acc else acc ++ [t]) else acc)).Nodup := by
  by_cases hf : filterTagForDisplay t = true
  · rw [if_pos hf]
    by_cases hc : acc.contains t = true
    · rw [if_pos hc]
      exact h
    · rw [if_neg hc]
      have ht : t ∉ acc := fun hmem => hc (List.elem_iff.mpr hmem)
      exact List.Nodup.append h (List.nodup_singleton t)
        (by simpa [List.disjoint_singleton] using ht)
  · rw [if_neg hf]
    exact h

theorem collectInner_mem :
    ∀ (ts acc : List String) (x : String),
      (x ∈ ts.foldl (fun acc t =>
          if filterTagForDisplay t then
            (if acc.contains t then acc else acc ++ [t]) else acc) acc) ↔
        x ∈ acc ∨ (x ∈ ts ∧ filterTagForDisplay x = true)
  | [], acc, x => by simp
  | t :: ts, acc, x => by
    rw [List.foldl_cons, collectInner_mem ts _ x, collectStep_mem acc t x]
    constructor
    · rintro ((h | ⟨rfl, hf⟩) | ⟨hts, hf⟩)
      · exact Or.inl h
      · exact Or.inr ⟨List.mem_cons_self _ _, hf⟩
      · exact Or.inr ⟨List.mem_cons_of_mem _ hts, hf⟩
    · rintro (h | ⟨hmem, hf⟩)
      · exact Or.inl (Or.inl h)
      · rcases List.mem_cons.mp hmem with h1 | h1
        · exact Or.inl (Or.inr ⟨h1, h1 ▸ hf⟩)
        · exact Or.inr ⟨h1, hf⟩

theorem collectInner_nodup :
    ∀ (ts acc : List String), acc.Nodup →
      (ts.foldl (fun acc t =>
          if filterTagForDisplay t then
            (if acc.contains t then acc else acc ++ [t]) else acc) acc).Nodup
  | [], _, h => h
  | t :: ts, acc, h =>
    collectInner_nodup ts _ (collectStep_nodup acc t h)

theorem collectOuter_mem :
    ∀ (rs : List ModelResult) (acc : List String) (x : String),
      (x ∈ rs.foldl (fun acc r =>
          match r.tags with
          | none => acc
          | some ts =>
            ts.foldl (fun acc t =>
              if filterTagForDisplay t then
                (if acc.contains t then acc else acc ++ [t]) else acc) acc) acc) ↔
        x ∈ acc ∨ ∃ r ∈ rs, ∃ ts, r.tags = some ts ∧ x ∈ ts ∧
          filterTagForDisplay x = true
  | [], acc, x => by simp
  | r :: rs, acc, x => by
    rw [List.foldl_cons, collectOuter_mem rs _ x]
    cases hr : r.tags with
    | none =>
      simp only [hr]
      constructor
      · rintro (h | ⟨r', hr', rest⟩)
        · exact Or.inl h
        · exact Or.inr ⟨r', List.mem_cons_of_mem _ hr', rest⟩
      · rintro (h | ⟨r', hr', ts, hts, hx, hf⟩)
        · exact Or.inl h
        · rcases List.mem_cons.mp hr' with h1 | h1
          · rw [h1, hr] at hts
            exact absurd hts (by simp)
          · exact Or.inr ⟨r', h1, ts, hts, hx, hf⟩
    | some ts =>
      simp only [hr]
      rw [collectInner_mem ts acc x]
      constructor
      · rintro ((h | ⟨hx, hf⟩) | ⟨r', hr', rest⟩)
        · exact Or.inl h
        · exact Or.inr ⟨r, List.mem_cons_self _ _, ts, hr, hx, hf⟩
        · exact Or.inr ⟨r', List.mem_cons_of_mem _ hr', rest⟩
      · rintro (h | ⟨r', hr', ts', hts', hx, hf⟩)
        · exact Or.inl (Or.inl h)
        · rcases List.mem_cons.mp hr' with h1 | h1
          · rw [h1, hr] at hts'
            simp only [Option.some.injEq] at hts'
            rw [← hts'] at hx
            exact Or.inl (Or.inr ⟨hx, hf⟩)
          · exact Or.inr ⟨r', h1, ts', hts', hx, hf⟩

theorem collectOuter_nodup :
    ∀ (rs : List ModelResult) (acc : List String), acc.Nodup →
      (rs.foldl (fun acc r =>
          match r.tags with
          | none => acc
          | some ts =>
            ts.foldl (fun acc t =>
              if filterTagForDisplay t then
                (if acc.contains t then acc else acc ++ [t]) else acc) acc) acc).Nodup
  | [], _, h => h
  | r :: rs, acc, h => by
    rw [List.foldl_cons]
    refine collectOuter_nodup rs _ ?_
    cases hr : r.tags with
    | none => simpa [hr] using h
    | some ts =>
      simp only [hr]
      exact collectInner_nodup ts acc h

theorem collectDisplayTags_mem (results : List ModelResult) (x : String) :
    x ∈ collectDisplayTags results ↔
      ∃ r ∈ results, ∃ ts, r.tags = some ts ∧ x ∈ ts ∧
        filterTagForDisplay x = true := by
  rw [collectDisplayTags, collectOuter_mem results [] x]
  simp

theorem collectDisplayTags_nodup (results : List ModelResult) :
    (collectDisplayTags results).Nodup :=
  collectOuter_nodup results [] List.nodup_nil

/-! Properties of the grouping object model. -/

theorem findGroup_addToGroup :
    ∀ (g : List (String × List ModelResult)) (k name : String) (m : ModelResult),
      findGroup name (addToGroup k m g) =
        if k = name then some ((findGroup name g).getD [] ++ [m])
        else findGroup name g
  | [], k, name, m => by
    by_cases h : k = name
    · simp [addToGroup, findGroup, h]
    · simp [addToGroup, findGroup, h]
  | (k', v) :: rest, k, name, m => by
    by_cases hk : k' = k
    · subst hk
      by_cases hn : k' = name
      · simp [addToGroup, findGroup, hn]
      · simp [addToGroup, findGroup, hn]
    · by_cases hn : k' = name
      · subst hn
        have hkn : ¬ k = k' := fun h => hk h.symm
        simp [addToGroup, findGroup, hk, hkn]
      · simp [addToGroup, findGroup, hk, hn, findGroup_addToGroup rest k name m]

theorem findGroup_foldl :
    ∀ (ms : List ModelResult) (g : List (String × List ModelResult)) (name : String),
      findGroup name
          (ms.foldl (fun acc m => addToGroup (getBaseModelName m.model_id) m acc) g) =
        match findGroup name g with
        | some v =>
          some (v ++ ms.filter (fun m => decide (getBaseModelName m.model_id = name)))
        | none =>
          if ms.filter (fun m => decide (getBaseModelName m.model_id = name)) = [] then
            none
          else some (ms.filter (fun m => decide (getBaseModelName m.model_id = name)))
  | [], g, name => by
    cases h : findGroup name g with
    | none => simp [h]
    | some v => simp [h]
  | m :: ms, g, name => by
    rw [List.foldl_cons, findGroup_foldl ms _ name, findGroup_addToGroup g _ name m]
    by_cases hbn : getBaseModelName m.model_id = name
    · rw [if_pos hbn]
      cases h : findGroup name g with
      | none =>
        simp only [Option.getD_none, List.nil_append]
        have : (m :: ms).filter (fun m => decide (getBaseModelName m.model_id = name)) =
            m :: ms.filter (fun m => decide (getBaseModelName m.model_id = name)) := by
          simp [List.filter_cons, hbn]
        rw [this]
        simp
      | some v =>
        simp only [Option.getD_some]
        have : (m :: ms).filter (fun m => decide (getBaseModelName m.model_id = name)) =
            m :: ms.filter (fun m => decide (getBaseModelName m.model_id = name)) := by
          simp [List.filter_cons, hbn]
        rw [this]
        simp
    · rw [if_neg hbn]
      have : (m :: ms).filter (fun m => decide (getBaseModelName m.model_id = name)) =
          ms.filter (fun m => decide (getBaseModelName m.model_id = name)) := by
        simp [List.filter_cons, hbn]
      rw [this]

theorem findGroup_group (models : List ModelResult) (name : String) :
    findGroup name (groupModelsByBaseName models) =
      if models.filter (fun m => decide (getBaseModelName m.model_id = name)) = [] then
        none
      else some (models.filter (fun m => decide (getBaseModelName m.model_id = name))) := by
  rw [groupModelsByBaseName, findGroup_foldl models [] name]
  rfl

theorem keysOf_addToGroup :
    ∀ (g : List (String × List ModelResult)) (k : String) (m : ModelResult),
      keysOf (addToGroup k m g) =
        if k ∈ keysOf g then keysOf g else keysOf g ++ [k]
  | [], k, m => by simp [addToGroup, keysOf]
  | (k', v) :: rest, k, m => by
    by_cases hk : k' = k
    · subst hk
      simp [addToGroup, keysOf]
    · have hk2 : ¬ k = k' := fun h => hk h.symm
      have step : addToGroup k m ((k', v) :: rest) = (k', v) :: addToGroup k m rest := by
        simp [addToGroup, hk]
      rw [step]
      have hkeys : keysOf ((k', v) :: addToGroup k m rest)
          = k' :: keysOf (addToGroup k m rest) := rfl
      rw [hkeys, keysOf_addToGroup rest k m]
      have hkeys2 : keysOf ((k', v) :: rest) = k' :: keysOf rest := rfl
      rw [hkeys2]
      by_cases hmem : k ∈ keysOf rest
      · rw [if_pos hmem, if_pos (List.mem_cons_of_mem _ hmem)]
      · rw [if_neg hmem, if_neg (by
          intro h
          rcases List.mem_cons.mp h with h1 | h1
          · exact hk2 h1
          · exact hmem h1)]
        simp

theorem keysOf_foldl :
    ∀ (ms : List ModelResult) (g : List (String × List ModelResult)),
      keysOf (ms.foldl (fun acc m => addToGroup (getBaseModelName m.model_id) m acc) g) =
        (ms.map (fun m => getBaseModelName m.model_id)).foldl
          (fun acc k => if k ∈ acc then acc else acc ++ [k]) (keysOf g)
  | [], g => rfl
  | m :: ms, g => by
    rw [List.foldl_cons, List.map_cons, List.foldl_cons,
      keysOf_foldl ms _, keysOf_addToGroup g _ m]

theorem keysOf_group (models : List ModelResult) :
    keysOf (groupModelsByBaseName models) =
      firstOccurrences (models.map (fun m => getBaseModelName m.model_id)) := by
  rw [groupModelsByBaseName, keysOf_foldl models [], firstOccurrences]
  rfl

theorem foldl_insertNew_nodup :
    ∀ (l acc : List String), acc.Nodup →
      (l.foldl (fun acc k => if k ∈ acc then acc else acc ++ [k]) acc).Nodup
  | [], _, h => h
  | k :: l, acc, h => by
    rw [List.foldl_cons]
    refine foldl_insertNew_nodup l _ ?_
    by_cases hk : k ∈ acc
    · rwa [if_pos hk]
    · rw [if_neg hk]
      exact List.Nodup.append h (List.nodup_singleton k)
        (by simpa [List.disjoint_singleton] using hk)

theorem firstOccurrences_nodup (l : List String) : (firstOccurrences l).Nodup :=
  foldl_insertNew_nodup l [] List.nodup_nil

theorem keysOf_group_nodup (models : List ModelResult) :
    (keysOf (groupModelsByBaseName models)).Nodup := by
  rw [keysOf_group]
  exact firstOccurrences_nodup _

theorem flatMap_addToGroup :
    ∀ (g : List (String × List ModelResult)) (k : String) (m : ModelResult),
      List.Perm ((addToGroup k m g).flatMap (fun p => p.2))
        (g.flatMap (fun p => p.2) ++ [m])
  | [], k, m => by simp [addToGroup]
  | (k', v) :: rest, k, m => by
    by_cases hk : k' = k
    · subst hk
      have step : addToGroup k' m ((k', v) :: rest) = (k', v ++ [m]) :: rest := by
        simp [addToGroup]
      rw [step]
      simp only [List.flatMap_cons]
      rw [List.append_assoc, List.append_assoc]
      exact List.Perm.append_left v List.perm_append_comm
    · have step : addToGroup k m ((k', v) :: rest) = (k', v) :: addToGroup k m rest := by
        simp [addToGroup, hk]
      rw [step]
      simp only [List.flatMap_cons]
      rw [List.append_assoc]
      exact List.Perm.append_left v (flatMap_addToGroup rest k m)

theorem flatMap_foldl :
    ∀ (ms : List ModelResult) (g : List (String × List ModelResult)),
      List.Perm
        ((ms.foldl (fun acc m => addToGroup (getBaseModelName m.model_id) m acc) g).flatMap
          (fun p => p.2))
        (g.flatMap (fun p => p.2) ++ ms)
  | [], g => by simp
  | m :: ms, g => by
    rw [List.foldl_cons]
    refine (flatMap_foldl ms _).trans ?_
    have h1 := flatMap_addToGroup g (getBaseModelName m.model_id) m
    have h2 := h1.append_right ms
    refine h2.trans ?_
    rw [List.append_assoc]
    exact List.Perm.refl _

theorem flatMap_group (models : List ModelResult) :
    List.Perm ((groupModelsByBaseName models).flatMap (fun p => p.2)) models := by
  rw [groupModelsByBaseName]
  simpa using flatMap_foldl models []

theorem findGroup_of_mem :
    ∀ (g : List (String × List ModelResult)) (k : String) (v : List ModelResult),
      (keysOf g).Nodup → (k, v) ∈ g → findGroup k g = some v
  | (k', v') :: rest, k, v, hnd, hmem => by
    have hnd' := hnd
    rw [keysOf, List.map_cons, List.nodup_cons] at hnd'
    rcases List.mem_cons.mp hmem with h1 | h1
    · have hk : k' = k := (congrArg Prod.fst h1).symm
      have hv : v' = v := (congrArg Prod.snd h1).symm
      simp [findGroup, hk, hv]
    · have hkrest : k ∈ keysOf rest := by
        rw [keysOf]
        exact List.mem_map.mpr ⟨(k, v), h1, rfl⟩
      have hne : ¬ k' = k := by
        intro h
        exact hnd'.1 (by rw [h]; exact hkrest)
      rw [findGroup, if_neg hne]
      exact findGroup_of_mem rest k v hnd'.2 h1

theorem mem_jsObjectEntries (g : List (String × List ModelResult))
    (p : String × List ModelResult) : p ∈ jsObjectEntries g ↔ p ∈ g := by
  rw [jsObjectEntries, List.mem_append, mem_jsSort]
  constructor
  · rintro (h | h) <;> exact List.mem_of_mem_filter h
  · intro h
    by_cases hp : isArrayIndexKey p.1 = true
    · exact Or.inl (List.mem_filter.mpr ⟨h, hp⟩)
    · exact Or.inr (List.mem_filter.mpr ⟨h, by simpa using hp⟩)

theorem jsObjectEntries_perm (g : List (String × List ModelResult)) :
    List.Perm (jsObjectEntries g) g := by
  rw [jsObjectEntries]
  refine List.Perm.trans ?_ (List.filter_append_perm (fun p => isArrayIndexKey p.1) g)
  exact (jsSort_perm _ _).append_right _

theorem jsObjectEntries_eq_of_no_index (g : List (String × List ModelResult))
    (h : ∀ k ∈ keysOf g, isArrayIndexKey k = false) : jsObjectEntries g = g := by
  rw [jsObjectEntries]
  have h1 : g.filter (fun p => isArrayIndexKey p.1) = [] := by
    rw [List.filter_eq_nil_iff]
    intro p hp
    have := h p.1 (List.mem_map.mpr ⟨p, hp, rfl⟩)
    simp [this]
  have h2 : g.filter (fun p => !isArrayIndexKey p.1) = g := by
    rw [List.filter_eq_self]
    intro p hp
    have := h p.1 (List.mem_map.mpr ⟨p, hp, rfl⟩)
    simp [this]
  rw [h1, h2]
  rfl

/-! String-splitting lemmas for the base-name extractor. -/

theorem splitOnChar_ne_nil (sep : Char) : ∀ l : List Char, splitOnChar sep l ≠ []
  | [] => by simp [splitOnChar]
  | c :: cs => by
    by_cases h : c = sep
    · simp [splitOnChar, h]
    · simp only [splitOnChar, if_neg h]
      cases hs : splitOnChar sep cs with
      | nil => simp
      | cons p ps => simp

theorem splitOnChar_of_not_mem (sep : Char) :
    ∀ l : List Char, sep ∉ l → splitOnChar sep l = [l]
  | [], _ => rfl
  | c :: cs, h => by
    have hc : ¬ c = sep := fun he => h (he ▸ List.mem_cons_self c cs)
    have hcs : sep ∉ cs := fun hm => h (List.mem_cons_of_mem c hm)
    simp only [splitOnChar, if_neg hc, splitOnChar_of_not_mem sep cs hcs]

theorem splitOnChar_append (sep : Char) :
    ∀ a b : List Char, sep ∉ a →
      splitOnChar sep (a ++ sep :: b) = a :: splitOnChar sep b
  | [], b, _ => by simp [splitOnChar]
  | c :: cs, b, h => by
    have hc : ¬ c = sep := fun he => h (he ▸ List.mem_cons_self c cs)
    have hcs : sep ∉ cs := fun hm => h (List.mem_cons_of_mem c hm)
    have step := splitOnChar_append sep cs b hcs
    have hbody : splitOnChar sep ((c :: cs) ++ sep :: b) =
        match splitOnChar sep (cs ++ sep :: b) with
        | [] => [[c]]
        | p :: ps => (c :: p) :: ps := by
      simp only [List.cons_append, splitOnChar, if_neg hc]
      rfl
    rw [hbody, step]

theorem firstPart_eq_takeWhile (sep : Char) :
    ∀ l : List Char, firstPart sep l = l.takeWhile (fun c => decide (c ≠ sep))
  | [] => rfl
  | c :: cs => by
    by_cases h : c = sep
    · subst h
      simp [firstPart, splitOnChar, List.takeWhile_cons]
    · have := firstPart_eq_takeWhile sep cs
      rw [firstPart] at this ⊢
      simp only [splitOnChar, if_neg h]
      cases hs : splitOnChar sep cs with
      | nil => exact absurd hs (splitOnChar_ne_nil sep cs)
      | cons p ps =>
        rw [hs] at this
        have this2 : p = List.takeWhile (fun c => decide (c ≠ sep)) cs := this
        rw [List.takeWhile_cons_of_pos (by simp [h]), ← this2]

theorem takeWhile_ne_of_not_mem (c0 : Char) :
    ∀ l : List Char, c0 ∉ l → l.takeWhile (fun c => decide (c ≠ c0)) = l
  | [], _ => rfl
  | c :: cs, h => by
    have hc : ¬ c = c0 := fun he => h (he ▸ List.mem_cons_self c cs)
    have hcs : c0 ∉ cs := fun hm => h (List.mem_cons_of_mem c hm)
    rw [List.takeWhile_cons_of_pos (by simp [hc]), takeWhile_ne_of_not_mem c0 cs hcs]

theorem strEq_of_data (a b : String) (h : a.data = b.data) : a = b :=
  congrArg String.mk h

/-! Pipeline-step lemmas. -/

theorem applyPipelineFilter_eq (results : List ModelResult) (fs : FilterState) :
    applyPipelineFilter results fs =
      (sortStep fs.sortOption
        (rangeFilterStep fs.downloadRange
          (tagFilterStep fs.selectedTags results))).take fs.resultsLimit :=
  rfl

theorem length_sortStep (mode : String) (l : List ModelResult) :
    (sortStep mode l).length = l.length := by
  rw [sortStep]
  split_ifs <;> first | rw [length_jsSort] | rfl

theorem mem_sortStep (mode : String) (l : List ModelResult) (x : ModelResult) :
    x ∈ sortStep mode l ↔ x ∈ l := by
  rw [sortStep]
  split_ifs <;> first | rw [mem_jsSort] | rfl

theorem distLe_total (a b : ModelResult) : distLe a b = true ∨ distLe b a = true := by
  rcases le_total a.distance b.distance with h | h
  · exact Or.inl (by simp [distLe, h])
  · exact Or.inr (by simp [distLe, h])

theorem distLe_trans (a b c : ModelResult) :
    distLe a b = true → distLe b c = true → distLe a c = true := by
  intro h1 h2
  simp only [distLe, decide_eq_true_eq] at h1 h2 ⊢
  exact le_trans h1 h2

/-! State-projection helpers for the effect cascade. -/

theorem facetEffect_selectedTags (s : AppState) :
    (facetEffect s).selectedTags = s.selectedTags := by
  rw [facetEffect]
  split <;> rfl

theorem facetEffect_sortOption (s : AppState) :
    (facetEffect s).sortOption = s.sortOption := by
  rw [facetEffect]
  split <;> rfl

theorem facetEffect_resultsLimit (s : AppState) :
    (facetEffect s).resultsLimit = s.resultsLimit := by
  rw [facetEffect]
  split <;> rfl

theorem facetEffect_results (s : AppState) :
    (facetEffect s).results = s.results := by
  rw [facetEffect]
  split <;> rfl

theorem facetEffect_error (s : AppState) :
    (facetEffect s).error = s.error := by
  rw [facetEffect]
  split <;> rfl

theorem facetEffect_loading (s : AppState) :
    (facetEffect s).loading = s.loading := by
  rw [facetEffect]
  split <;> rfl

theorem facetEffect_downloadRange_of_ne (s : AppState) (h : s.results ≠ []) :
    (facetEffect s).downloadRange = (0, maxDownloadOf s.results) := by
  rw [facetEffect, if_pos (List.length_pos.mpr h)]

theorem runEffects_selectedTags (s : AppState) :
    (runEffects s).selectedTags = s.selectedTags := by
  rw [runEffects, show (filterEffect (facetEffect s)).selectedTags =
    (facetEffect s).selectedTags from rfl, facetEffect_selectedTags]

theorem runEffects_sortOption (s : AppState) :
    (runEffects s).sortOption = s.sortOption := by
  rw [runEffects, show (filterEffect (facetEffect s)).sortOption =
    (facetEffect s).sortOption from rfl, facetEffect_sortOption]

theorem runEffects_resultsLimit (s : AppState) :
    (runEffects s).resultsLimit = s.resultsLimit := by
  rw [runEffects, show (filterEffect (facetEffect s)).resultsLimit =
    (facetEffect s).resultsLimit from rfl, facetEffect_resultsLimit]

theorem runEffects_results (s : AppState) :
    (runEffects s).results = s.results := by
  rw [runEffects, show (filterEffect (facetEffect s)).results =
    (facetEffect s).results from rfl, facetEffect_results]

theorem runEffects_error (s : AppState) :
    (runEffects s).error = s.error := by
  rw [runEffects, show (filterEffect (facetEffect s)).error =
    (facetEffect s).error from rfl, facetEffect_error]

theorem runEffects_loading (s : AppState) :
    (runEffects s).loading = s.loading := by
  rw [runEffects, show (filterEffect (facetEffect s)).loading =
    (facetEffect s).loading from rfl, facetEffect_loading]

theorem handleSearchCore_fields (s : AppState) (u : String) (outcome : FetchOutcome)
    (hq : jsTrim s.query ≠ ("")) :
    (handleSearchCore (some u) outcome s).selectedTags = []
    ∧ (handleSearchCore (some u) outcome s).sortOption = s.sortOption
    ∧ (handleSearchCore (some u) outcome s).resultsLimit = s.resultsLimit
    ∧ (handleSearchCore (some u) outcome s).loading = false := by
  refine ⟨?_, ?_, ?_, ?_⟩ <;>
    · rw [handleSearchCore, if_neg hq]
      cases searchAttempt (some u) outcome <;> rfl

theorem handleSearchCore_of_ok (s : AppState) (u : String) (outcome : FetchOutcome)
    (rs : List ModelResult) (hq : jsTrim s.query ≠ (""))
    (hok : searchAttempt (some u) outcome = Except.ok rs) :
    (handleSearchCore (some u) outcome s).results = rs := by
  rw [handleSearchCore, if_neg hq, hok]

theorem handleSearchCore_of_error (s : AppState) (u : String) (outcome : FetchOutcome)
    (e : Option String) (hq : jsTrim s.query ≠ (""))
    (herr : searchAttempt (some u) outcome = Except.error e) :
    (handleSearchCore (some u) outcome s).results = s.results
    ∧ (handleSearchCore (some u) outcome s).error =
        some (e.getD ("An unknown error occurred")) := by
  refine ⟨?_, ?_⟩ <;> rw [handleSearchCore, if_neg hq, herr]

theorem searchAttempt_of_failure (u : String) (outcome : FetchOutcome)
    (hfail : isFailureOutcome outcome = true) :
    ∃ e, searchAttempt (some u) outcome = Except.error e ∧
      e.getD ("An unknown error occurred") = failureMessage outcome := by
  cases outcome with
  | response ok status statusText rf =>
    have hok : ok = false := by simpa [isFailureOutcome] using hfail
    subst hok
    exact ⟨some (("Server responded with ") ++ toString status ++ (": ") ++ statusText),
      by simp [searchAttempt], rfl⟩
  | thrownError msg => exact ⟨some msg, rfl, rfl⟩
  | thrownNonError => exact ⟨none, rfl, rfl⟩

/-! Claim theorems. -/

/-- Claim C1: for every raw result list and filter state, the displayed
list equals the raw list put through tag filter, then download-range
filter, then sort, then truncation to the first `resultsLimit` elements,
in that fixed order; its length is the minimum of the limit and the number
of qualifying items, so with `resultsLimit = 2` and 5 qualifying items the
output has length exactly 2 and is the front of the post-sort sequence. -/
theorem pipeline_fixed_order_and_limit (results : List ModelResult) (fs : FilterState) :
    applyPipelineFilter results fs =
        (sortStep fs.sortOption
          (rangeFilterStep fs.downloadRange
            (tagFilterStep fs.selectedTags results))).take fs.resultsLimit
    ∧ (applyPipelineFilter results fs).length =
        min fs.resultsLimit
          (rangeFilterStep fs.downloadRange (tagFilterStep fs.selectedTags results)).length
    ∧ (fs.resultsLimit = 2 →
        (rangeFilterStep fs.downloadRange (tagFilterStep fs.selectedTags results)).length = 5 →
        (applyPipelineFilter results fs).length = 2) := by
  have h1 : applyPipelineFilter results fs =
      (sortStep fs.sortOption
        (rangeFilterStep fs.downloadRange
          (tagFilterStep fs.selectedTags results))).take fs.resultsLimit :=
    applyPipelineFilter_eq results fs
  have h2 : (applyPipelineFilter results fs).length =
      min fs.resultsLimit
        (rangeFilterStep fs.downloadRange (tagFilterStep fs.selectedTags results)).length := by
    rw [h1, List.length_take, length_sortStep]
  refine ⟨h1, h2, ?_⟩
  intro ha hb
  rw [h2, ha, hb]
  decide

/-- Witness for C1: a concrete run with limit 2 and 5 qualifying items. -/
theorem pipeline_fixed_order_and_limit_witness :
    (applyPipelineFilter exRaw5 exFsLimit2).length = 2 :=
  (pipeline_fixed_order_and_limit exRaw5 exFsLimit2).2.2 rfl (by decide)

/-- Claim C8: a sort mode other than `downloads-high`, `downloads-low` and
`relevance` performs no reordering: the sort step is the identity and the
pipeline is filter steps followed directly by truncation. -/
theorem unknown_sort_passthrough (results : List ModelResult) (fs : FilterState)
    (h1 : fs.sortOption ≠ ("downloads-high"))
    (h2 : fs.sortOption ≠ ("downloads-low"))
    (h3 : fs.sortOption ≠ ("relevance")) :
    (∀ l : List ModelResult, sortStep fs.sortOption l = l)
    ∧ applyPipelineFilter results fs =
        (rangeFilterStep fs.downloadRange
          (tagFilterStep fs.selectedTags results)).take fs.resultsLimit := by
  have hs : ∀ l : List ModelResult, sortStep fs.sortOption l = l := by
    intro l
    rw [sortStep, if_neg h1, if_neg h2, if_neg h3]
  refine ⟨hs, ?_⟩
  rw [applyPipelineFilter_eq, hs]

/-- Witness for C8: the unrecognized mode `"newest"` passes through. -/
theorem unknown_sort_passthrough_witness :
    applyPipelineFilter exRaw5 exFsUnknown =
      (rangeFilterStep exFsUnknown.downloadRange
        (tagFilterStep exFsUnknown.selectedTags exRaw5)).take exFsUnknown.resultsLimit :=
  (unknown_sort_passthrough exRaw5 exFsUnknown (by decide) (by decide) (by decide)).2

/-- Claim C10: for every input list and base name, the group stored under
that name is exactly the subsequence of the input whose identifiers have
that base name, in original input order (`List.filter` preserves order);
absent names have no group. -/
theorem group_content_exact (models : List ModelResult) (name : String) :
    findGroup name (groupModelsByBaseName models) =
      if models.filter (fun m => decide (getBaseModelName m.model_id = name)) = [] then
        none
      else some (models.filter (fun m => decide (getBaseModelName m.model_id = name))) :=
  findGroup_group models name

/-- Claim C3 (amended): submitting a search resets only `selectedTags` to
`[]`; when a non-empty result set arrives the facet effect resets
`downloadRange` to `[0, maxDownloads]`; `sortOption` and `resultsLimit`
persist across the submission.  The full defaults are restored only by
`clearFilters`. -/
theorem submit_resets_only_selected_tags (s : AppState) (u : String)
    (outcome : FetchOutcome) (hq : jsTrim s.query ≠ ("")) :
    (submitSearch (some u) outcome s).selectedTags = []
    ∧ (submitSearch (some u) outcome s).sortOption = s.sortOption
    ∧ (submitSearch (some u) outcome s).resultsLimit = s.resultsLimit
    ∧ (∀ rs, searchAttempt (some u) outcome = Except.ok rs → rs ≠ [] →
        (submitSearch (some u) outcome s).downloadRange = (0, maxDownloadOf rs))
    ∧ (clearFilters s).selectedTags = []
    ∧ (clearFilters s).downloadRange = (0, s.maxDownloads)
    ∧ (clearFilters s).sortOption = ("relevance")
    ∧ (clearFilters s).resultsLimit = 40 := by
  rcases handleSearchCore_fields s u outcome hq with ⟨hsel, hsort, hlim, _⟩
  refine ⟨?_, ?_, ?_, ?_, rfl, rfl, rfl, rfl⟩
  · rw [submitSearch, runEffects_selectedTags, hsel]
  · rw [submitSearch, runEffects_sortOption, hsort]
  · rw [submitSearch, runEffects_resultsLimit, hlim]
  · intro rs hok hne
    have hres : (handleSearchCore (some u) outcome s).results = rs :=
      handleSearchCore_of_ok s u outcome rs hq hok
    rw [submitSearch, runEffects,
      show (filterEffect (facetEffect (handleSearchCore (some u) outcome s))).downloadRange
        = (facetEffect (handleSearchCore (some u) outcome s)).downloadRange from rfl,
      facetEffect_downloadRange_of_ne _ (by rw [hres]; exact hne), hres]

/-- Counterexample to C3 as stated: after a successful submission the sort
mode and result limit keep their pre-submission values instead of
returning to the defaults `relevance` and `40`. -/
theorem submit_resets_only_selected_tags_counterexample :
    (submitSearch (some ("u")) exOutcomeOk exStateC3).sortOption ≠ ("relevance")
    ∧ (submitSearch (some ("u")) exOutcomeOk exStateC3).resultsLimit ≠ 40 := by
  decide

/-- Witness for the amended C3 at a concrete state and outcome. -/
theorem submit_resets_only_selected_tags_witness :
    (submitSearch (some ("u")) exOutcomeOk exStateC3).selectedTags = []
    ∧ (submitSearch (some ("u")) exOutcomeOk exStateC3).sortOption = exStateC3.sortOption :=
  ⟨(submit_resets_only_selected_tags exStateC3 ("u") exOutcomeOk (by decide)).1,
   (submit_resets_only_selected_tags exStateC3 ("u") exOutcomeOk (by decide)).2.1⟩

/-- Claim C9: a failed search (non-2xx response, thrown `Error`, or a
non-`Error` thrown value) stores exactly the single human-readable message
(status code and text for HTTP errors, the `Error` message, or the generic
unknown-error fallback), leaves the raw result set untouched, and ends
with loading cleared — the handler itself never throws. -/
theorem search_failure_single_error (s : AppState) (u : String)
    (outcome : FetchOutcome) (hq : jsTrim s.query ≠ (""))
    (hfail : isFailureOutcome outcome = true) :
    (submitSearch (some u) outcome s).results = s.results
    ∧ (submitSearch (some u) outcome s).error = some (failureMessage outcome)
    ∧ (submitSearch (some u) outcome s).loading = false := by
  rcases searchAttempt_of_failure u outcome hfail with ⟨e, herr, hmsg⟩
  rcases handleSearchCore_of_error s u outcome e hq herr with ⟨hres, herrf⟩
  rcases handleSearchCore_fields s u outcome hq with ⟨_, _, _, hload⟩
  refine ⟨?_, ?_, ?_⟩
  · rw [submitSearch, runEffects_results, hres]
  · rw [submitSearch, runEffects_error, herrf, hmsg]
  · rw [submitSearch, runEffects_loading, hload]

/-- Witness for C9 at a concrete HTTP 500 failure. -/
theorem search_failure_single_error_witness :
    (submitSearch (some ("u")) exOutcomeErr exBaseState).results = exBaseState.results
    ∧ (submitSearch (some ("u")) exOutcomeErr exBaseState).error =
        some (failureMessage exOutcomeErr)
    ∧ (submitSearch (some ("u")) exOutcomeErr exBaseState).loading = false :=
  search_failure_single_error exBaseState ("u") exOutcomeErr (by decide) (by decide)

/-- Claim C2 (amended): whenever the raw result set is non-empty, the
facets are recomputed from the unfiltered raw set: `availableTags` is the
lexicographically sorted duplicate-free list of the displayable tags over
all raw items, `maxDownloads` the maximum of their downloads, and the
download range is reset to `[0, maxDownloads]`; `availableTags` does not
depend on `selectedTags`, so narrowing the selection never shrinks it.
When the raw set is empty the facet effect leaves the previous facet state
unchanged instead of resetting `maxDownloads` to 0. -/
theorem facets_from_raw_amended (s : AppState) (hne : s.results ≠ [])
    (hdl : ∀ r ∈ s.results, 0 ≤ r.downloads) :
    (facetEffect s).availableTags.Pairwise (fun a b => strLe a b = true)
    ∧ (facetEffect s).availableTags.Nodup
    ∧ (∀ x, x ∈ (facetEffect s).availableTags ↔
        ∃ r ∈ s.results, ∃ ts, r.tags = some ts ∧ x ∈ ts ∧
          filterTagForDisplay x = true)
    ∧ (facetEffect s).maxDownloads ∈ s.results.map (fun m => m.downloads)
    ∧ (∀ r ∈ s.results, r.downloads ≤ (facetEffect s).maxDownloads)
    ∧ (facetEffect s).downloadRange = (0, (facetEffect s).maxDownloads)
    ∧ (∀ ts : List String,
        (facetEffect { s with selectedTags := ts }).availableTags =
          (facetEffect s).availableTags) := by
  have hlen : s.results.length > 0 := List.length_pos.mpr hne
  have hAT : (facetEffect s).availableTags = jsSort strLe (collectDisplayTags s.results) := by
    rw [facetEffect, if_pos hlen]
  have hMD : (facetEffect s).maxDownloads = maxDownloadOf s.results := by
    rw [facetEffect, if_pos hlen]
  have hDR : (facetEffect s).downloadRange = (0, maxDownloadOf s.results) := by
    rw [facetEffect, if_pos hlen]
  refine ⟨?_, ?_, ?_, ?_, ?_, ?_, ?_⟩
  · rw [hAT]
    exact pairwise_jsSort strLe strLe_total strLe_trans _
  · rw [hAT]
    exact ((jsSort_perm strLe _).nodup_iff).mpr (collectDisplayTags_nodup _)
  · intro x
    rw [hAT, mem_jsSort]
    exact collectDisplayTags_mem s.results x
  · rw [hMD, maxDownloadOf_eq_foldl_max]
    have hmem0 := foldl_max_mem (s.results.map (fun m => m.downloads)) 0
    rcases List.mem_cons.mp hmem0 with h0 | h1
    · rcases List.exists_mem_of_ne_nil s.results hne with ⟨r0, hr0⟩
      have hle0 : r0.downloads ≤ (s.results.map (fun m => m.downloads)).foldl max 0 :=
        foldl_max_le _ 0 r0.downloads
          (List.mem_cons_of_mem _ (List.mem_map.mpr ⟨r0, hr0, rfl⟩))
      have hz : r0.downloads = 0 := le_antisymm (h0 ▸ hle0) (hdl r0 hr0)
      rw [h0]
      exact List.mem_map.mpr ⟨r0, hr0, hz⟩
    · exact h1
  · intro r hr
    rw [hMD, maxDownloadOf_eq_foldl_max]
    exact foldl_max_le _ 0 r.downloads
      (List.mem_cons_of_mem _ (List.mem_map.mpr ⟨r, hr, rfl⟩))
  · rw [hDR, hMD]
  · intro ts
    have hlen2 : ({ s with selectedTags := ts } : AppState).results.length > 0 := hlen
    have h2 : (facetEffect { s with selectedTags := ts }).availableTags =
        jsSort strLe (collectDisplayTags s.results) := by
      rw [facetEffect, if_pos hlen2]
    rw [h2, hAT]

/-- Counterexample to C2 as stated: an empty raw result set leaves the
previous `maxDownloads` (here 5) in place instead of resetting it to 0. -/
theorem facets_from_raw_counterexample :
    exStateC2.results = [] ∧ (facetEffect exStateC2).maxDownloads = 5
    ∧ (facetEffect exStateC2).maxDownloads ≠ 0 := by
  decide

/-- Witness for the amended C2 at a concrete non-empty state. -/
theorem facets_from_raw_witness :
    (facetEffect exStateFacet).downloadRange = (0, (facetEffect exStateFacet).maxDownloads) :=
  (facets_from_raw_amended exStateFacet (by decide) (by decide)).2.2.2.2.2.1

/-- Claim C4 (amended): tag selection is a widening OR at the filter and
sort stages — every item passing the tag filter for `t1 ⊆ t2` also passes
it for `t2`, and every pipeline output item for `t1` qualifies for `t2` —
and the full pipeline output for `t2` is a superset of the output for `t1`
whenever `resultLimit` is at least the number of items qualifying under
`t2`; with a smaller limit truncation can evict items, so the superset
property fails in general (see the counterexample). -/
theorem tag_widening_or_amended (results : List ModelResult) (range : Int × Int)
    (mode : String) (lim : Nat) (t1 t2 : List String)
    (hne : t1 ≠ []) (hsub : ∀ t ∈ t1, t ∈ t2) :
    (∀ m ∈ tagFilterStep t1 results, m ∈ tagFilterStep t2 results)
    ∧ (∀ m ∈ applyPipelineFilter results ⟨t1, range, mode, lim⟩,
        m ∈ rangeFilterStep range (tagFilterStep t2 results))
    ∧ ((rangeFilterStep range (tagFilterStep t2 results)).length ≤ lim →
        ∀ m ∈ applyPipelineFilter results ⟨t1, range, mode, lim⟩,
          m ∈ applyPipelineFilter results ⟨t2, range, mode, lim⟩) := by
  have hA : ∀ m ∈ tagFilterStep t1 results, m ∈ tagFilterStep t2 results := by
    intro m hm
    rcases List.exists_mem_of_ne_nil t1 hne with ⟨t0, ht0⟩
    have ht2ne : t2 ≠ [] := by
      intro hemp
      have := hsub t0 ht0
      rw [hemp] at this
      exact List.not_mem_nil t0 this
    have hlen1 : t1.length > 0 := List.length_pos.mpr hne
    have hlen2 : t2.length > 0 := List.length_pos.mpr ht2ne
    rw [tagFilterStep, if_pos hlen1] at hm
    rw [tagFilterStep, if_pos hlen2]
    rcases List.mem_filter.mp hm with ⟨hmem, hpred⟩
    refine List.mem_filter.mpr ⟨hmem, ?_⟩
    cases hts : m.tags with
    | none =>
      rw [hts] at hpred
      exact absurd hpred (by simp)
    | some ts =>
      rw [hts] at hpred
      have hpred2 : (t1.any fun tag => ts.contains tag) = true := hpred
      show (t2.any fun tag => ts.contains tag) = true
      rcases List.any_eq_true.mp hpred2 with ⟨t, ht, htc⟩
      exact List.any_eq_true.mpr ⟨t, hsub t ht, htc⟩
  have hB : ∀ m ∈ applyPipelineFilter results ⟨t1, range, mode, lim⟩,
      m ∈ rangeFilterStep range (tagFilterStep t2 results) := by
    intro m hm
    have hm1 : m ∈ (sortStep mode (rangeFilterStep range (tagFilterStep t1 results))).take lim := hm
    have hm2 : m ∈ sortStep mode (rangeFilterStep range (tagFilterStep t1 results)) :=
      List.mem_of_mem_take hm1
    have hm3 : m ∈ rangeFilterStep range (tagFilterStep t1 results) :=
      (mem_sortStep _ _ _).mp hm2
    rcases List.mem_filter.mp hm3 with ⟨hmem, hpred⟩
    exact List.mem_filter.mpr ⟨hA m hmem, hpred⟩
  refine ⟨hA, hB, ?_⟩
  intro hlim m hm
  have hmem2 : m ∈ rangeFilterStep range (tagFilterStep t2 results) := hB m hm
  show m ∈ (sortStep mode (rangeFilterStep range (tagFilterStep t2 results))).take lim
  have hlen : (sortStep mode (rangeFilterStep range (tagFilterStep t2 results))).length ≤ lim := by
    rw [length_sortStep]
    exact hlim
  rw [List.take_of_length_le hlen]
  exact (mem_sortStep _ _ _).mpr hmem2

/-- Counterexample to C4 as stated: with `resultLimit = 1` the item shown
under selection `{aaaa}` is evicted under the wider selection
`{aaaa, bbbb}`, so the output is not a superset. -/
theorem tag_widening_or_amended_counterexample :
    exItemA ∈ applyPipelineFilter exRawC4 exFsSelA
    ∧ exItemA ∉ applyPipelineFilter exRawC4 exFsSelAB := by
  decide

/-- Witness for the amended C4: with a limit covering all qualifying
items, the item shown under `{aaaa}` also appears under `{aaaa, bbbb}`. -/
theorem tag_widening_or_amended_witness :
    exItemA ∈ applyPipelineFilter exRawC4
      ⟨[("aaaa"), ("bbbb")], (0, 100), ("downloads-high"), 40⟩ :=
  (tag_widening_or_amended exRawC4 (0, 100) ("downloads-high") 40
      [("aaaa")] [("aaaa"), ("bbbb")] (by decide) (by decide)).2.2
    (by decide) exItemA (by decide)

/-- Claim C5 (amended): grouping is a partition — the concatenation of all
enumerated groups is a permutation of the input, each enumerated group is
exactly the input subsequence with that base name, and group keys are
pairwise distinct; the keys of the underlying object are in
first-occurrence order, and `Object.entries` enumeration follows that
order exactly when no base name is an array-index-like string (canonical
decimal numeral below 2^32 - 1) — array-index-like base names are
enumerated first, so first-occurrence order fails in general (see the
counterexample). -/
theorem grouping_partition_entry_order (models : List ModelResult) :
    List.Perm ((jsObjectEntries (groupModelsByBaseName models)).flatMap (fun p => p.2)) models
    ∧ (∀ p ∈ jsObjectEntries (groupModelsByBaseName models),
        p.2 = models.filter (fun m => decide (getBaseModelName m.model_id = p.1)))
    ∧ (keysOf (groupModelsByBaseName models)).Nodup
    ∧ keysOf (groupModelsByBaseName models) =
        firstOccurrences (models.map (fun m => getBaseModelName m.model_id))
    ∧ ((∀ k ∈ keysOf (groupModelsByBaseName models), isArrayIndexKey k = false) →
        jsObjectEntries (groupModelsByBaseName models) = groupModelsByBaseName models) := by
  refine ⟨?_, ?_, keysOf_group_nodup models, keysOf_group models,
    jsObjectEntries_eq_of_no_index _⟩
  · exact (List.Perm.flatMap_right (fun p => p.2)
      (jsObjectEntries_perm (groupModelsByBaseName models))).trans (flatMap_group models)
  · intro p hp
    have hpg : p ∈ groupModelsByBaseName models := (mem_jsObjectEntries _ p).mp hp
    have hfind : findGroup p.1 (groupModelsByBaseName models) = some p.2 :=
      findGroup_of_mem _ p.1 p.2 (keysOf_group_nodup models) (by simpa using hpg)
    rw [findGroup_group models p.1] at hfind
    by_cases hf : models.filter (fun m => decide (getBaseModelName m.model_id = p.1)) = []
    · rw [if_pos hf] at hfind
      exact absurd hfind (by simp)
    · rw [if_neg hf] at hfind
      simp only [Option.some.injEq] at hfind
      exact hfind.symm

/-- Counterexample to C5 as stated: with base names `"b"` (first) and
`"7"` (second), `Object.entries` enumerates the array-index-like key `"7"`
first, so the enumeration does not follow first-occurrence order. -/
theorem grouping_partition_entry_order_counterexample :
    keysOf (jsObjectEntries (groupModelsByBaseName exRawC5)) = [("7"), ("b")]
    ∧ firstOccurrences (exRawC5.map (fun m => getBaseModelName m.model_id)) = [("b"), ("7")]
    ∧ keysOf (jsObjectEntries (groupModelsByBaseName exRawC5)) ≠
        firstOccurrences (exRawC5.map (fun m => getBaseModelName m.model_id)) := by
  decide

/-- Witness for the amended C5: with no array-index-like base name the
enumeration is the insertion-ordered object itself. -/
theorem grouping_partition_entry_order_witness :
    jsObjectEntries (groupModelsByBaseName exRawC5w) = groupModelsByBaseName exRawC5w :=
  (grouping_partition_entry_order exRawC5w).2.2.2.2 (by decide)

/-- Claim C6: on a non-empty group `getGroupStats` returns the minimum and
maximum of `downloads`, the minimum `distance` as best relevance, and the
tag list of the item attaining that minimum, where a tie on equal distance
is won by the earlier item (stable ascending sort by distance, first
element wins): the chosen item `b` attains the minimum distance and every
item strictly before it in the group has strictly larger distance. -/
theorem group_stats_spec (models : List ModelResult) (h : models ≠ []) :
    ∃ s b, getGroupStats models = some s
      ∧ s.minDownloads ∈ models.map (fun m => m.downloads)
      ∧ (∀ m ∈ models, s.minDownloads ≤ m.downloads)
      ∧ s.maxDownloads ∈ models.map (fun m => m.downloads)
      ∧ (∀ m ∈ models, m.downloads ≤ s.maxDownloads)
      ∧ b ∈ models
      ∧ s.bestRelevance = b.distance
      ∧ s.bestTags = b.tags.getD []
      ∧ (∀ m ∈ models, b.distance ≤ m.distance)
      ∧ ∃ l1 l2, models = l1 ++ b :: l2 ∧ ∀ x ∈ l1, b.distance < x.distance := by
  cases models with
  | nil => exact absurd rfl h
  | cons m ms =>
    cases hs : jsSort distLe (m :: ms) with
    | nil =>
      have hlen := length_jsSort distLe (m :: ms)
      rw [hs] at hlen
      simp at hlen
    | cons best rest =>
      have hfb : firstBest distLe (m :: ms) = some best := by
        rw [← head?_jsSort distLe (m :: ms), hs]
        rfl
      have hbmem : best ∈ m :: ms := firstBest_mem distLe (m :: ms) best hfb
      have hbdist : ∀ x ∈ m :: ms, best.distance ≤ x.distance := by
        intro x hx
        have := firstBest_le distLe distLe_total distLe_trans (m :: ms) best hfb x hx
        simpa [distLe] using this
      rcases firstBest_first distLe (m :: ms) best hfb with ⟨l1, l2, heq, hl1⟩
      have hl1lt : ∀ x ∈ l1, best.distance < x.distance := by
        intro x hx
        have := hl1 x hx
        simp only [distLe, decide_eq_false_iff_not, not_le] at this
        exact this
      have hgs : getGroupStats (m :: ms) =
          some { minDownloads := (ms.map (fun m => m.downloads)).foldl min m.downloads
               , maxDownloads := (ms.map (fun m => m.downloads)).foldl max m.downloads
               , bestRelevance := best.distance
               , bestTags := best.tags.getD [] } := by
        simp only [getGroupStats, hs, List.map_cons]
      refine ⟨_, best, hgs, ?_, ?_, ?_, ?_, hbmem, rfl, rfl, hbdist, l1, l2, heq, hl1lt⟩
      · have := foldl_min_mem (ms.map (fun m => m.downloads)) m.downloads
        simpa using this
      · intro x hx
        refine foldl_min_le (ms.map (fun m => m.downloads)) m.downloads x.downloads ?_
        rcases List.mem_cons.mp hx with h1 | h1
        · rw [h1]
          exact List.mem_cons_self _ _
        · exact List.mem_cons_of_mem _ (List.mem_map.mpr ⟨x, h1, rfl⟩)
      · have := foldl_max_mem (ms.map (fun m => m.downloads)) m.downloads
        simpa using this
      · intro x hx
        refine foldl_max_le (ms.map (fun m => m.downloads)) m.downloads x.downloads ?_
        rcases List.mem_cons.mp hx with h1 | h1
        · rw [h1]
          exact List.mem_cons_self _ _
        · exact List.mem_cons_of_mem _ (List.mem_map.mpr ⟨x, h1, rfl⟩)

/-- Witness for C6 at the group of the specification's example (downloads
10 and 30, distances 0.5 and 0.2). -/
theorem group_stats_spec_witness :
    exGroupC6 ≠ [] ∧
    ∃ s b, getGroupStats exGroupC6 = some s
      ∧ s.minDownloads ∈ exGroupC6.map (fun m => m.downloads)
      ∧ (∀ m ∈ exGroupC6, s.minDownloads ≤ m.downloads)
      ∧ s.maxDownloads ∈ exGroupC6.map (fun m => m.downloads)
      ∧ (∀ m ∈ exGroupC6, m.downloads ≤ s.maxDownloads)
      ∧ b ∈ exGroupC6
      ∧ s.bestRelevance = b.distance
      ∧ s.bestTags = b.tags.getD []
      ∧ (∀ m ∈ exGroupC6, b.distance ≤ m.distance)
      ∧ ∃ l1 l2, exGroupC6 = l1 ++ b :: l2 ∧ ∀ x ∈ l1, b.distance < x.distance :=
  ⟨by decide, group_stats_spec exGroupC6 (by decide)⟩

/-- Claim C7: for slash-free namespace and name parts, the base-name
extractor maps `ns/nm` to `ns/` plus the portion of `nm` before its first
hyphen (so `org/name-7b` becomes `org/name`), leaves `ns/nm` unchanged
when `nm` has no hyphen, and maps a bare identifier to its portion before
the first hyphen (`name-v2` becomes `name`). -/
theorem base_name_spec (ns nm : String)
    (hns : ('/') ∉ ns.data) (hnm : ('/') ∉ nm.data) :
    getBaseModelName (ns ++ ("/") ++ nm) =
        ns ++ ("/") ++ String.mk (nm.data.takeWhile (fun c => decide (c ≠ ('-'))))
    ∧ (('-') ∉ nm.data → getBaseModelName (ns ++ ("/") ++ nm) = ns ++ ("/") ++ nm)
    ∧ getBaseModelName nm = String.mk (nm.data.takeWhile (fun c => decide (c ≠ ('-')))) := by
  have hdata : (ns ++ ("/") ++ nm).data = ns.data ++ ('/') :: nm.data := by
    rw [String.data_append, String.data_append]
    rw [List.append_assoc]
    rfl
  have hsplit : splitOnChar ('/') ((ns ++ ("/") ++ nm).data) =
      ns.data :: [nm.data] := by
    rw [hdata, splitOnChar_append ('/') ns.data nm.data hns,
      splitOnChar_of_not_mem ('/') nm.data hnm]
  have h1 : getBaseModelName (ns ++ ("/") ++ nm) =
      String.mk (ns.data ++ ('/') :: firstPart ('-') nm.data) := by
    rw [getBaseModelName, hsplit]
  have hfp := firstPart_eq_takeWhile ('-') nm.data
  have h1' : getBaseModelName (ns ++ ("/") ++ nm) =
      ns ++ ("/") ++ String.mk (nm.data.takeWhile (fun c => decide (c ≠ ('-')))) := by
    rw [h1, hfp]
    refine strEq_of_data _ _ ?_
    rw [String.data_append, String.data_append]
    rw [List.append_assoc]
    rfl
  refine ⟨h1', ?_, ?_⟩
  · intro hdash
    rw [h1']
    have : nm.data.takeWhile (fun c => decide (c ≠ ('-'))) = nm.data :=
      takeWhile_ne_of_not_mem ('-') nm.data hdash
    rw [this]
  · rw [getBaseModelName, splitOnChar_of_not_mem ('/') nm.data hnm]
    show String.mk (firstPart ('-') nm.data) =
      String.mk (nm.data.takeWhile (fun c => decide (c ≠ ('-'))))
    rw [hfp]

/-- Witness for C7 at the three identifiers named in the specification. -/
theorem base_name_spec_witness :
    getBaseModelName ("org/name-7b") = ("org/name")
    ∧ getBaseModelName ("org/name") = ("org/name")
    ∧ getBaseModelName ("name-v2") = ("name") := by
  refine ⟨?_, ?_, ?_⟩
  · have h := (base_name_spec ("org") ("name-7b") (by decide) (by decide)).1
    rw [show (("org") ++ ("/") ++ ("name-7b") : String) = ("org/name-7b") from by decide] at h
    rw [h]
    decide
  · have h := (base_name_spec ("org") ("name") (by decide) (by decide)).2.1 (by decide)
    rw [show (("org") ++ ("/") ++ ("name") : String) = ("org/name") from by decide] at h
    exact h
  · have h := (base_name_spec ("x") ("name-v2") (by decide) (by decide)).2.2
    rw [h]
    decide
